import Mathlib

/-!
Verification of the HS-code tariff pipeline: `1_build_hscode_tree.py`
(note parsing and tree building) and `2_transverse_hscode_tree.py`
(oracle-driven classification).  The Python dictionaries are embedded as
insertion-ordered association lists, mirroring CPython's dict semantics
(lookup by key, in-place update, append on fresh key).  File I/O, the
cache-skip on an existing tree artifact, and the LLM network client are
outside the embedding: the oracle is a function from the data the prompt
is built from (query, breadcrumb, notes, choice list) to the structured
response the source decodes from JSON.
-/

/-- Byte-wise list prefix test, used to embed Python's string prefix
relations over `String.data`. -/
def prefixB : List Char → List Char → Bool
  | [], _ => true
  | _ :: _, [] => false
  | a :: as, b :: bs => decide (a = b) && prefixB as bs

/-- Embedding of Python's slicing `s[:n]`. -/
def strTake (s : String) (n : Nat) : String :=
  String.mk (s.data.take n)

/-- Python whitespace characters stripped by `str.strip()` (ASCII range;
the tariff table is ASCII). -/
def pyWhitespace (c : Char) : Bool :=
  decide (c = ' ') || decide (c = '\t') || decide (c = '\n') ||
    decide (c = '\r') || decide (c = '\x0b') || decide (c = '\x0c')

/-- Embedding of Python's `str.strip()`. -/
def strStrip (s : String) : String :=
  String.mk (((s.data.dropWhile pyWhitespace).reverse.dropWhile pyWhitespace).reverse)

/-- Helper for `containsSubstr`: does `pat` occur at some position of the
second list? -/
def infixAtB (pat : List Char) : List Char → Bool
  | [] => prefixB pat []
  | a :: rest => prefixB pat (a :: rest) || infixAtB pat rest

/-- Embedding of Python's substring test `pat in s`. -/
def containsSubstr (s pat : String) : Bool :=
  infixAtB pat.data s.data

/-- Embedding of Python's `sep.join(items)`. -/
def joinSep (sep : String) : List String → String
  | [] => ""
  | [x] => x
  | x :: y :: rest => x ++ sep ++ joinSep sep (y :: rest)

/-- Dictionary lookup `d.get(k)` / `d[k]` on the ordered association list
embedding of a Python dict. -/
def getA {α : Type} : List (String × α) → String → Option α
  | [], _ => none
  | (k', v) :: rest, k => if k' = k then some v else getA rest k

/-- Dictionary write `d[k] = v`: update in place when the key is present
(insertion order kept), append otherwise — CPython dict semantics. -/
def setA {α : Type} : List (String × α) → String → α → List (String × α)
  | [], k, v => [(k, v)]
  | (k', v') :: rest, k, v =>
    if k' = k then (k, v) :: rest else (k', v') :: setA rest k v

/-- A row of the flat tariff table after `pd.read_csv(..., dtype=str).fillna('')`:
every field is a (possibly empty) string.  Columns `HEADER, SUB, ITEM,
DESCRIPTION, IMPORT_RATE, EKSPORT_RATE, SST` of the source. -/
structure Row where
  header : String
  sub : String
  item : String
  description : String
  import_rate : String
  eksport_rate : String
  sst : String

/-- A node of the HS-code tree: the nested dict
`{description, notes, children}` (plus, on leaves, the three rate strings).
An absent key and a key stored as Python `None` are both read through
`.get`, so both embed as `none`. -/
inductive Node where
  | mk (description : String) (notes : Option String)
      (import_rate : Option String) (export_rate : Option String)
      (sst_rate : Option String) (children : List (String × Node)) : Node

def Node.description : Node → String
  | .mk d _ _ _ _ _ => d

def Node.notes : Node → Option String
  | .mk _ n _ _ _ _ => n

def Node.import_rate : Node → Option String
  | .mk _ _ i _ _ _ => i

def Node.export_rate : Node → Option String
  | .mk _ _ _ e _ _ => e

def Node.sst_rate : Node → Option String
  | .mk _ _ _ _ s _ => s

def Node.children : Node → List (String × Node)
  | .mk _ _ _ _ _ c => c

/-- In-place mutation `node['description'] = d` of the Python dict. -/
def Node.withDescription : Node → String → Node
  | .mk _ n i e s c, d => .mk d n i e s c

/-- In-place mutation of the `children` sub-dict of the Python dict. -/
def Node.withChildren : Node → List (String × Node) → Node
  | .mk d n i e s _, c => .mk d n i e s c

/-- State of the two-state machine in `parse_notes` (source lines 14-17):
the accumulated notes dict, the current block key, the accumulated lines
and the in-block flag. -/
structure NotesState where
  chapter_notes : List (String × String)
  current_key : Option String
  current_text : List String
  in_note_block : Bool

/-- The source calls `pd.isna(row['HEADER'])` (line 32) on a dataframe that
was already passed through `.fillna('')` (line 56): no cell is NaN any more
and an empty string is not NA, so the test is constantly false. -/
def pd_isna (_ : String) : Bool :=
  false

/-- One iteration of the row loop of `parse_notes` (source lines 19-40). -/
def parse_notes_step (st : NotesState) (row : Row) : NotesState :=
  let desc := strStrip row.description
  let header := strStrip row.header
  let is_chapter_note_start :=
    containsSubstr desc "Chapter Notes." && decide (2 ≤ header.length)
  if is_chapter_note_start then
    { chapter_notes :=
        match st.current_key with
        | some k => setA st.chapter_notes k (joinSep "\n" st.current_text)
        | none => st.chapter_notes
      current_key := some (strTake header 2)
      current_text := [desc]
      in_note_block := true }
  else if st.in_note_block && pd_isna row.header then
    { st with current_text := st.current_text ++ [desc] }
  else if st.in_note_block then
    { chapter_notes :=
        match st.current_key with
        | some k => setA st.chapter_notes k (joinSep "\n" st.current_text)
        | none => st.chapter_notes
      current_key := none
      current_text := []
      in_note_block := false }
  else st

/-- Embedding of `parse_notes` (source lines 11-48, minus the JSON dump):
fold the row loop, then flush the last open block (lines 42-43).  A stored
`current_key` is always a 2-character header prefix, so Python's truthiness
test `if current_key:` coincides with the `Option` match. -/
def parse_notes (rows : List Row) : List (String × String) :=
  let st := rows.foldl parse_notes_step ⟨[], none, [], false⟩
  match st.current_key with
  | some k => setA st.chapter_notes k (joinSep "\n" st.current_text)
  | none => st.chapter_notes

/-- One iteration of the row loop of `build_tree` (source lines 63-123).
Python mutates the nested dicts in place; the embedding reads the chapter
node, rebuilds it, and writes it back with `setA`, which preserves the
dict's insertion order exactly as the in-place mutation does.  Chapter
nodes are only ever created with a `description` key (line 79), so the
`.get('description','z'*100)` on line 94 always returns the stored
description and never the sentinel. -/
def build_row (chapter_notes : List (String × String))
    (hs_tree : List (String × Node)) (row : Row) : List (String × Node) :=
  let header := row.header
  let sub := row.sub
  let item := row.item
  let desc := strStrip row.description
  if header = "" || desc = "" || containsSubstr desc "Notes." then
    hs_tree
  else
    let chapter_code := strTake header 2
    let heading_code := header
    let subheading_code := header ++ sub
    let full_code := header ++ sub ++ item
    let ch0 : Node :=
      match getA hs_tree chapter_code with
      | some n => n
      | none => Node.mk "" (getA chapter_notes chapter_code) none none none []
    if sub = "" && item = "" then
      let hnode : Node :=
        match getA ch0.children heading_code with
        | some h => h.withDescription desc
        | none => Node.mk desc none none none none []
      let ch1 := ch0.withChildren (setA ch0.children heading_code hnode)
      let ch2 :=
        if desc.length < ch1.description.length then ch1.withDescription desc else ch1
      setA hs_tree chapter_code ch2
    else
      let h0 : Node :=
        match getA ch0.children heading_code with
        | some h => h
        | none => Node.mk "" none none none none []
      if item = "" then
        let snode : Node :=
          match getA h0.children subheading_code with
          | some s => s.withDescription desc
          | none => Node.mk desc none none none none []
        let h1 := h0.withChildren (setA h0.children subheading_code snode)
        let ch1 := ch0.withChildren (setA ch0.children heading_code h1)
        setA hs_tree chapter_code ch1
      else
        let s0 : Node :=
          match getA h0.children subheading_code with
          | some s => s
          | none => Node.mk "" none none none none []
        let leaf := Node.mk desc none (some row.import_rate) (some row.eksport_rate)
          (some row.sst) []
        let s1 := s0.withChildren (setA s0.children full_code leaf)
        let h1 := h0.withChildren (setA h0.children subheading_code s1)
        let ch1 := ch0.withChildren (setA ch0.children heading_code h1)
        setA hs_tree chapter_code ch1

/-- Embedding of the tree-building loop of `build_tree` (source lines
60-123), as a function of the ordered row list and the notes map.  Reading
the CSV, the cache-skip on an existing artifact and the JSON dump are
outside the embedding. -/
def build_tree (rows : List Row) (chapter_notes : List (String × String)) :
    List (String × Node) :=
  rows.foldl (build_row chapter_notes) []

/-- One entry of the choice list the classifier shows the oracle (source
lines 69-72): child code, child description, and the number of
sub-categories announced by the lookahead text. -/
structure Choice where
  code : String
  description : String
  sub_category_count : Nat

/-- The structured response `classify_product` decodes from the LLM's JSON
(source lines 19-27 and 97-98). -/
structure OracleResponse where
  best_choice_code : String
  justification : String
  confidence_score : Int

/-- The external oracle of `_get_llm_choice`, abstracted over the data the
prompt string is interpolated from (source lines 77-95): product
description, breadcrumb `current_path_str`, parent notes text, and the
ordered choice list. -/
abbrev Oracle := String → String → String → List Choice → OracleResponse

/-- One entry appended to `classification_path` (source lines 107-112). -/
structure Step where
  code : String
  description : String
  justification : String
  confidence : Int

/-- Outcome of `classify_product`: the success dict of lines 121-130, the
`{"error": "LLM hallucinated an invalid code."}` dict of line 103 (the
constructor records the internal `classification_path` at the moment of
the abort; the source's returned dict carries only the error string), or
the uncaught `IndexError` that `classification_path[-1]` raises on line
124 when the loop never ran. -/
inductive ClassifyResult where
  | success (product_description : String) (full_path : List Step)
      (final_hs_code : String) (import_rate : Option String)
      (export_rate : Option String) (sst_rate : Option String)
  | invalid_choice (path_at_abort : List Step)
  | index_error

/-- The choice list built from `current_node_dict["children"].items()`
(source lines 69-72), in dict insertion order. -/
def choicesOf (cs : List (String × Node)) : List Choice :=
  cs.map (fun p => ⟨p.1, p.2.description, p.2.children.length⟩)

/-- The breadcrumb `current_path_str`: initialized to `"Start"` (line 66)
and recomputed after every step as `" > ".join` of all step descriptions
(line 115), so at any oracle call it is a function of the path so far. -/
def breadcrumb : List Step → String
  | [] => "Start"
  | s :: rest => joinSep " > " ((s :: rest).map Step.description)

/-- Python's `current_node_dict.get("notes") or "None"` (line 75): `or`
replaces every falsy value — `None` and the empty string alike — by
`"None"`. -/
def orNoneStr : Option String → String
  | some s => if s = "" then "None" else s
  | none => "None"

theorem getA_mem {α : Type} : ∀ (cs : List (String × α)) (k : String) (v : α),
    getA cs k = some v → (k, v) ∈ cs := by
  intro cs k v h
  induction cs with
  | nil => simp [getA] at h
  | cons hd tl ih =>
    rw [getA] at h
    split at h
    · rename_i heq
      cases hd
      simp_all
    · simp [ih h]

theorem sizeOf_lt_of_getA (n : Node) (k : String) (c : Node)
    (h : getA n.children k = some c) : sizeOf c < sizeOf n := by
  have hm := List.sizeOf_lt_of_mem (getA_mem _ _ _ h)
  cases n
  simp only [Node.children] at hm ⊢
  simp [Node.mk.sizeOf_spec, Prod.mk.sizeOf_spec] at hm ⊢
  omega

/-- The `while current_node_dict.get("children")` loop of `classify_product`
(source lines 68-118) together with the result construction after it (lines
120-131).  Each iteration asks the oracle, validates the answer against the
children dict, appends a step and descends; an empty children dict exits
the loop, where `classification_path[-1]` either yields the final code or
raises `IndexError` on an empty path. -/
def classify_loop (oracle : Oracle) (product_description : String)
    (node : Node) (classification_path : List Step) : ClassifyResult :=
  match node.children with
  | [] =>
    match classification_path.getLast? with
    | some last =>
      .success product_description classification_path last.code
        node.import_rate node.export_rate node.sst_rate
    | none => .index_error
  | _ :: _ =>
    let response := oracle product_description (breadcrumb classification_path)
      (orNoneStr node.notes) (choicesOf node.children)
    match h : getA node.children response.best_choice_code with
    | none => .invalid_choice classification_path
    | some chosen_node =>
      classify_loop oracle product_description chosen_node
        (classification_path ++
          [⟨response.best_choice_code, chosen_node.description,
            response.justification, response.confidence_score⟩])
termination_by sizeOf node
decreasing_by exact sizeOf_lt_of_getA _ _ _ h

/-- The synthetic root `{"children": self.hs_tree}` of source line 65: a
dict whose only key is `children`, every other field read through `.get`
coming back `None`. -/
def rootNode (hs_tree : List (String × Node)) : Node :=
  Node.mk "" none none none none hs_tree

/-- Embedding of `classify_product` (source lines 58-131): start at the
synthetic root with an empty path and run the navigation loop. -/
def classify_product (hs_tree : List (String × Node))
    (product_description : String) (oracle : Oracle) : ClassifyResult :=
  classify_loop oracle product_description (rootNode hs_tree) []

/-- The four example rows of spec §8. -/
def exRows : List Row :=
  [⟨"01", "", "", "Live animals", "", "", ""⟩,
   ⟨"0101", "", "", "Live horses", "", "", ""⟩,
   ⟨"0101", "21", "", "Pure-bred breeding", "", "", ""⟩,
   ⟨"0101", "21", "10", "Horses", "0%", "0%", "Free"⟩]

/-- The tree the source builds from the §8 rows (checked by
`build_example_tree`): row 1 has a 2-character `HEADER` and an empty
`SUB`/`ITEM`, so it runs through the heading branch and creates a heading
child keyed `"01"` inside chapter `"01"`. -/
def exLeaf : Node := Node.mk "Horses" none (some "0%") (some "0%") (some "Free") []

def exSubheading : Node :=
  Node.mk "Pure-bred breeding" none none none none [("01012110", exLeaf)]

def exHeading0101 : Node :=
  Node.mk "Live horses" none none none none [("010121", exSubheading)]

def exHeading01 : Node := Node.mk "Live animals" none none none none []

def exChapter : Node :=
  Node.mk "" none none none none [("01", exHeading01), ("0101", exHeading0101)]

def exTree : List (String × Node) := [("01", exChapter)]

/-- The deterministic oracle of spec §8: always return the code of the
first listed choice (dict insertion order). -/
def firstOracle : Oracle := fun _ _ _ choices =>
  ⟨(choices.map Choice.code).headD "", "first listed choice", 100⟩

/-- An oracle that answers the first listed choice at the root (breadcrumb
`"Start"`) and an out-of-tree code `"ZZ"` afterwards; drives the
invalid-choice witness. -/
def badOracle : Oracle := fun _ pathStr _ choices =>
  if pathStr = "Start" then ⟨(choices.map Choice.code).headD "", "first", 100⟩
  else ⟨"ZZ", "bad", 1⟩

/-- Does a classification result satisfy §8's expectation for the
first-choice oracle — success with final code `"01012110"` and a path of
exactly 3 steps? -/
def c1Expected (res : ClassifyResult) : Bool :=
  match res with
  | .success _ p c _ _ _ => decide (c = "01012110") && decide (p.length = 3)
  | _ => false

/-- C8: building from exactly the four §8 rows yields group `"01"`
containing heading `"0101"`, which contains subheading `"010121"`, which
contains leaf `"01012110"` whose description is `"Horses"` and whose
import, export and sst rates read `"0%"`, `"0%"` and `"Free"`.  The first
conjunct computes the entire tree, so the containment facts are read off
the explicit value. -/
theorem build_example_tree :
    build_tree exRows [] = exTree ∧
    getA (build_tree exRows []) "01" = some exChapter ∧
    getA exChapter.children "0101" = some exHeading0101 ∧
    getA exHeading0101.children "010121" = some exSubheading ∧
    getA exSubheading.children "01012110" = some exLeaf ∧
    exLeaf.description = "Horses" ∧
    exLeaf.import_rate = some "0%" ∧
    exLeaf.export_rate = some "0%" ∧
    exLeaf.sst_rate = some "Free" := by
  exact ⟨rfl, rfl, rfl, rfl, rfl, rfl, rfl, rfl, rfl⟩


/-- C2 (failing input): a single heading-title row `{HEADER:"0101",
DESC:"Live horses"}`.  The chapter node is created with `description ""`
(source line 79), so line 94 compares `len("Live horses") < len("")`,
which is false — the group's description is never set, although the heading
child itself is created.  The code's own comments (lines 79 and 94) say the
chapter description is to be filled in by this comparison. -/
theorem build_group_description_stays_empty :
    build_tree [⟨"0101", "", "", "Live horses", "", "", ""⟩] [] =
      [("01", Node.mk "" none none none none
        [("0101", Node.mk "Live horses" none none none none [])])] := by
  rfl

/-- C3 (failing input): a marker row followed by an empty-header
continuation row.  Because `parse_notes` runs after `.fillna('')`,
`pd.isna(row['HEADER'])` is always false and the continuation branch
(source line 32-33) is dead: the block is flushed at the very next row and
holds a single line, not the two lines the note-block boundary law
demands. -/
theorem parse_notes_no_continuation :
    parse_notes
      [⟨"01", "", "", "SECTION I Chapter Notes. 1. Blah", "", "", ""⟩,
       ⟨"", "", "", "Continuation text", "", "", ""⟩] =
      [("01", "SECTION I Chapter Notes. 1. Blah")] := by
  rfl

/-- C4 (failing input): classification on an empty tree.  The `while` loop
never runs, `classification_path` stays empty, and building the result dict
evaluates `classification_path[-1]` — an uncaught `IndexError`, not the
"no classification possible" error object the spec demands. -/
theorem classify_empty_tree_index_error :
    classify_product [] "widget" firstOracle = ClassifyResult.index_error := by
  simp [classify_product, classify_loop, rootNode, Node.children]

/-- C1 (counterexample): navigating the tree built from the §8 rows with
the first-listed-choice oracle does not end at `"01012110"` with a path of
3 steps.  The first row's 2-character `HEADER` created a childless heading
child keyed `"01"` inside chapter `"01"`, and it is the first listed choice
at the chapter level, so navigation stops there after 2 steps. -/
theorem classify_first_choice_claim_fails :
    c1Expected (classify_product exTree "Live pure-bred breeding horses" firstOracle) =
      false := by
  rw [show classify_product exTree "Live pure-bred breeding horses" firstOracle =
      ClassifyResult.success "Live pure-bred breeding horses"
        [⟨"01", "", "first listed choice", 100⟩,
         ⟨"01", "Live animals", "first listed choice", 100⟩]
        "01" none none none by
    simp [classify_product, classify_loop, rootNode, Node.children, exTree, exChapter,
      exHeading01, exHeading0101, exSubheading, exLeaf, firstOracle, choicesOf,
      breadcrumb, joinSep, orNoneStr, getA, Node.description, Node.notes,
      Node.import_rate, Node.export_rate, Node.sst_rate]]
  rfl

/-- C1 (amended): on the tree built from the §8 rows, the
first-listed-choice oracle terminates successfully for every query with
`final_hs_code = "01"` and a path of exactly 2 steps, the second of which
descends into the childless heading node `"01"` created by the first
example row. -/
theorem classify_first_choice_example (q : String) :
    classify_product exTree q firstOracle =
      ClassifyResult.success q
        [⟨"01", "", "first listed choice", 100⟩,
         ⟨"01", "Live animals", "first listed choice", 100⟩]
        "01" none none none ∧
    ([⟨"01", "", "first listed choice", 100⟩,
      ⟨"01", "Live animals", "first listed choice", 100⟩] : List Step).length = 2 := by
  refine ⟨?_, rfl⟩
  simp [classify_product, classify_loop, rootNode, Node.children, exTree, exChapter,
    exHeading01, exHeading0101, exSubheading, exLeaf, firstOracle, choicesOf,
    breadcrumb, joinSep, orNoneStr, getA, Node.description, Node.notes,
    Node.import_rate, Node.export_rate, Node.sst_rate]

/-- The tree built from a lone subheading-title row: chapter and heading
are placeholders with empty descriptions, the subheading is childless. -/
def loneSubTree : List (String × Node) :=
  [("01", Node.mk "" none none none none
    [("0101", Node.mk "" none none none none
      [("010121", Node.mk "Pure-bred breeding" none none none none [])])])]

/-- C10: on the tree built from a lone subheading-title row (a subheading
never followed by any leaf row), the first-choice oracle terminates
successfully at the childless subheading `"010121"` — a 6-character code,
not an 8-character leaf — returning a success result whose tariff details
are all `none`. -/
theorem classify_childless_nonleaf_success :
    build_tree [⟨"0101", "21", "", "Pure-bred breeding", "", "", ""⟩] [] =
      loneSubTree ∧
    classify_product loneSubTree "widget" firstOracle =
      ClassifyResult.success "widget"
        [⟨"01", "", "first listed choice", 100⟩,
         ⟨"0101", "", "first listed choice", 100⟩,
         ⟨"010121", "Pure-bred breeding", "first listed choice", 100⟩]
        "010121" none none none ∧
    ("010121" : String).length ≠ 8 := by
  refine ⟨rfl, ?_, by decide⟩
  simp [classify_product, classify_loop, rootNode, Node.children, loneSubTree,
    firstOracle, choicesOf, breadcrumb, joinSep, orNoneStr, getA,
    Node.description, Node.notes, Node.import_rate, Node.export_rate,
    Node.sst_rate]

mutual
/-- Depth of a (sub)tree: a childless node has depth 0, an internal node
one more than its deepest child. -/
def Node.depth : Node → Nat
  | .mk _ _ _ _ _ cs => depthChildren cs
def depthChildren : List (String × Node) → Nat
  | [] => 0
  | (_, m) :: rest => max (1 + Node.depth m) (depthChildren rest)
end

theorem Node.depth_eq (n : Node) : n.depth = depthChildren n.children := by
  cases n; rfl

theorem depthChildren_mem : ∀ (cs : List (String × Node)) (c : String) (m : Node),
    (c, m) ∈ cs → 1 + Node.depth m ≤ depthChildren cs := by
  intro cs c m h
  induction cs with
  | nil => simp at h
  | cons hd tl ih =>
    cases hd
    rw [depthChildren]
    rcases List.mem_cons.mp h with h1 | h2
    · rw [Prod.mk.injEq] at h1
      rw [h1.2]
      exact le_max_left _ _
    · exact le_max_of_le_right (ih h2)

/-- Replay a recorded classification path against the tree: each step must
name a code that is a key of the current node's children and carry that
child's description — one entry per successfully validated step. -/
def descendSteps : Node → List Step → Option Node
  | node, [] => some node
  | node, s :: rest =>
    match getA node.children s.code with
    | some child =>
      if s.description = child.description then descendSteps child rest else none
    | none => none

theorem sizeOf_node_pos (n : Node) : 1 ≤ sizeOf n := by
  cases n; simp; omega

/-- Master invariant of the navigation loop, by induction on the size of
the current subtree: a success keeps the query and takes at most `depth`
further steps; `index_error` only happens with an empty path at a childless
node; an invalid-choice abort extends the incoming path by a validated
descent that ends at an internal node whose oracle answer is not among its
children. -/
theorem classify_loop_spec (oracle : Oracle) (q : String) :
    ∀ (fuel : Nat) (node : Node), sizeOf node ≤ fuel → ∀ (path : List Step),
      (∀ q2 p c i e s, classify_loop oracle q node path =
          ClassifyResult.success q2 p c i e s →
          q2 = q ∧ p.length ≤ path.length + node.depth) ∧
      (classify_loop oracle q node path = ClassifyResult.index_error →
          path = [] ∧ node.children = []) ∧
      (∀ p, classify_loop oracle q node path = ClassifyResult.invalid_choice p →
          p.length ≤ path.length + node.depth ∧
          ∃ suffix, p = path ++ suffix ∧
            (match descendSteps node suffix with
             | some n => n.children ≠ [] ∧
                 getA n.children (oracle q (breadcrumb p) (orNoneStr n.notes)
                   (choicesOf n.children)).best_choice_code = none
             | none => False)) := by
  intro fuel
  induction fuel with
  | zero =>
    intro node hsz
    exact absurd hsz (by have := sizeOf_node_pos node; omega)
  | succ m ih =>
    intro node hsz path
    rw [classify_loop.eq_def]
    split
    · -- children = []
      rename_i heq
      refine ⟨?_, ?_, ?_⟩
      · intro q2 p c i e s h
        split at h
        · rename_i hlast
          cases h
          exact ⟨rfl, by omega⟩
        · cases h
      · intro h
        split at h
        · cases h
        · rename_i hlast
          exact ⟨List.getLast?_eq_none_iff.mp hlast, heq⟩
      · intro p h
        split at h <;> cases h
    · -- children = hd :: tl
      rename_i hd tl heq
      simp only []
      split
      · -- getA = none : invalid_choice
        rename_i hget
        refine ⟨?_, ?_, ?_⟩
        · intro q2 p c i e s h; cases h
        · intro h; cases h
        · intro p h
          cases h
          refine ⟨by omega, ⟨[], by simp, ?_⟩⟩
          simp only [descendSteps]
          exact ⟨by simp [heq], hget⟩
      · -- getA = some chosen
        rename_i chosen hget
        have hlt : sizeOf chosen ≤ m := by
          have := sizeOf_lt_of_getA _ _ _ hget
          omega
        have hmem := getA_mem _ _ _ hget
        have hdep : 1 + chosen.depth ≤ node.depth := by
          rw [Node.depth_eq node]
          exact depthChildren_mem _ _ _ hmem
        obtain ⟨ihs, ihi, ihv⟩ := ih chosen hlt
          (path ++ [⟨(oracle q (breadcrumb path) (orNoneStr node.notes)
            (choicesOf node.children)).best_choice_code, chosen.description,
            (oracle q (breadcrumb path) (orNoneStr node.notes)
              (choicesOf node.children)).justification,
            (oracle q (breadcrumb path) (orNoneStr node.notes)
              (choicesOf node.children)).confidence_score⟩])
        refine ⟨?_, ?_, ?_⟩
        · intro q2 p c i e s h
          obtain ⟨hq, hlen⟩ := ihs q2 p c i e s h
          refine ⟨hq, ?_⟩
          simp at hlen
          omega
        · intro h
          obtain ⟨h1, _⟩ := ihi h
          simp at h1
        · intro p h
          obtain ⟨hlen, suffix, hsuf, hrest⟩ := ihv p h
          refine ⟨by simp at hlen; omega, ?_⟩
          refine ⟨⟨(oracle q (breadcrumb path) (orNoneStr node.notes)
            (choicesOf node.children)).best_choice_code, chosen.description,
            (oracle q (breadcrumb path) (orNoneStr node.notes)
              (choicesOf node.children)).justification,
            (oracle q (breadcrumb path) (orNoneStr node.notes)
              (choicesOf node.children)).confidence_score⟩ :: suffix, ?_, ?_⟩
          · rw [hsuf]; simp
          · simp [descendSteps, hget]
            exact hrest

/-- Where an aborted classification stands: the recorded path descends the
tree from the synthetic root one validated child per step, ending at a node
that still has children and whose oracle answer (for exactly this
breadcrumb) is not one of its children's codes. -/
def invalidAbortSpec (hs_tree : List (String × Node)) (q : String) (o : Oracle)
    (p : List Step) : Prop :=
  match descendSteps (rootNode hs_tree) p with
  | some n => n.children ≠ [] ∧
      getA n.children (o q (breadcrumb p) (orNoneStr n.notes)
        (choicesOf n.children)).best_choice_code = none
  | none => False

/-- C5: whenever the oracle returns a code that is not a key of the current
node's children, `classify_product` returns the distinct invalid-choice
error, and the path accumulated at that moment replays as exactly one entry
per successfully validated step from the root down to the aborting node (no
further descent, no retry, no fallback). -/
theorem classify_invalid_choice_aborts (hs_tree : List (String × Node))
    (q : String) (o : Oracle) (p : List Step)
    (h : classify_product hs_tree q o = ClassifyResult.invalid_choice p) :
    invalidAbortSpec hs_tree q o p ∧ p.length ≤ Node.depth (rootNode hs_tree) := by
  simp only [classify_product] at h
  obtain ⟨-, -, ihv⟩ := classify_loop_spec o q (sizeOf (rootNode hs_tree))
    (rootNode hs_tree) le_rfl []
  obtain ⟨hlen, suffix, hsuf, hrest⟩ := ihv p h
  have hs2 : p = suffix := by simpa using hsuf
  subst hs2
  exact ⟨hrest, by simpa using hlen⟩

/-- C6: for every finite tree and every oracle, `classify_product`
terminates (the navigation function is total), and it either succeeds at a
childless node within the tree's depth, raises the degenerate
`IndexError` (only on the empty tree, after zero steps), or aborts with the
invalid-choice error — never taking more steps than the tree's depth. -/
theorem classify_terminates_within_depth (hs_tree : List (String × Node))
    (q : String) (o : Oracle) :
    (∃ p c i e s, classify_product hs_tree q o = ClassifyResult.success q p c i e s ∧
        p.length ≤ Node.depth (rootNode hs_tree)) ∨
    (classify_product hs_tree q o = ClassifyResult.index_error ∧ hs_tree = []) ∨
    (∃ p, classify_product hs_tree q o = ClassifyResult.invalid_choice p ∧
        p.length ≤ Node.depth (rootNode hs_tree)) := by
  obtain ⟨ihs, ihi, ihv⟩ := classify_loop_spec o q (sizeOf (rootNode hs_tree))
    (rootNode hs_tree) le_rfl []
  cases hres : classify_loop o q (rootNode hs_tree) [] with
  | success q2 p c i e s =>
    left
    obtain ⟨hq, hlen⟩ := ihs q2 p c i e s hres
    subst hq
    exact ⟨p, c, i, e, s, hres, by simpa using hlen⟩
  | invalid_choice p =>
    right; right
    obtain ⟨hlen, -⟩ := ihv p hres
    exact ⟨p, hres, by simpa using hlen⟩
  | index_error =>
    right; left
    obtain ⟨-, hch⟩ := ihi hres
    exact ⟨hres, by simpa [rootNode, Node.children] using hch⟩

/-- Witness: on the §8 tree, `badOracle` answers `"ZZ"` at the second
level; the classification aborts with a one-step path. -/
theorem classify_invalid_choice_aborts_witness :
    invalidAbortSpec exTree "Live pure-bred breeding horses" badOracle
        [⟨"01", "", "first", 100⟩] ∧
      ([⟨"01", "", "first", 100⟩] : List Step).length ≤
        Node.depth (rootNode exTree) :=
  classify_invalid_choice_aborts exTree "Live pure-bred breeding horses" badOracle
    [⟨"01", "", "first", 100⟩]
    (by
      simp [classify_product, classify_loop, rootNode, Node.children, exTree,
        exChapter, exHeading01, exHeading0101, exSubheading, exLeaf, badOracle,
        choicesOf, breadcrumb, joinSep, orNoneStr, getA, Node.description,
        Node.notes, Node.import_rate, Node.export_rate, Node.sst_rate])

/-- Keys of an association list are pairwise distinct (dict invariant). -/
def distinctKeys : List (String × Node) → Bool
  | [] => true
  | (k, _) :: rest => rest.all (fun q => decide (q.1 ≠ k)) && distinctKeys rest

mutual
/-- The claim's invariant, in its non-strict form, for the subtree rooted at
a node whose own code is `k`: sibling keys are distinct at every level and
every child's code extends (has as a prefix) its parent's code. -/
def subtreeOkW : String → Node → Bool
  | k, .mk _ _ _ _ _ cs => distinctKeys cs && childrenOkW k cs
termination_by _ n => sizeOf n
/-- The same invariant for a children list under parent code `k`. -/
def childrenOkW : String → List (String × Node) → Bool
  | _, [] => true
  | k, (c, m) :: rest => prefixB k.data c.data && subtreeOkW c m && childrenOkW k rest
termination_by _ cs => sizeOf cs
end

mutual
/-- The claim's invariant as stated (strict prefix-extension), for the
subtree rooted at a node with code `k`. -/
def subtreeOkS : String → Node → Bool
  | k, .mk _ _ _ _ _ cs => distinctKeys cs && childrenOkS k cs
termination_by _ n => sizeOf n
def childrenOkS : String → List (String × Node) → Bool
  | _, [] => true
  | k, (c, m) :: rest =>
    (prefixB k.data c.data && decide (k.length < c.length)) && subtreeOkS c m &&
      childrenOkS k rest
termination_by _ cs => sizeOf cs
end

/-- Non-strict prefix invariant over the whole tree (the synthetic root has
code `""`, a prefix of every chapter code). -/
def treeOkW (t : List (String × Node)) : Bool :=
  distinctKeys t && childrenOkW "" t

/-- The claim's strict invariant over the whole tree. -/
def treeOkS (t : List (String × Node)) : Bool :=
  distinctKeys t && childrenOkS "" t

theorem prefixB_refl : ∀ l : List Char, prefixB l l = true := by
  intro l
  induction l with
  | nil => rfl
  | cons a as ih => simp [prefixB, ih]

theorem prefixB_take : ∀ (l : List Char) (n : Nat), prefixB (List.take n l) l = true := by
  intro l
  induction l with
  | nil => intro n; simp [prefixB]
  | cons a as ih =>
    intro n
    cases n with
    | zero => rfl
    | succ m => simp [prefixB, ih]

theorem prefixB_append_self : ∀ l t : List Char, prefixB l (l ++ t) = true := by
  intro l t
  induction l with
  | nil => rfl
  | cons a as ih => simp [prefixB, ih]

theorem childrenOkW_getA : ∀ (cs : List (String × Node)) (k c : String) (n : Node),
    childrenOkW k cs = true → getA cs c = some n →
    prefixB k.data c.data = true ∧ subtreeOkW c n = true := by
  intro cs k c n hok hget
  induction cs with
  | nil => simp [getA] at hget
  | cons hd tl ih =>
    obtain ⟨c', m⟩ := hd
    simp only [childrenOkW, Bool.and_eq_true] at hok
    rw [getA] at hget
    split at hget
    · rename_i heq
      cases hget
      subst heq
      exact ⟨hok.1.1, hok.1.2⟩
    · exact ih hok.2 hget

theorem all_setA {α : Type} : ∀ (cs : List (String × α)) (P : String × α → Bool)
    (c : String) (v : α), cs.all P = true → P (c, v) = true →
    (setA cs c v).all P = true := by
  intro cs P c v hall hp
  induction cs with
  | nil => simp [setA, hp]
  | cons hd tl ih =>
    obtain ⟨c', v'⟩ := hd
    simp only [List.all_cons, Bool.and_eq_true] at hall
    rw [setA]
    split
    · simp [List.all_cons, hp, hall.2]
    · simp [List.all_cons, hall.1, ih hall.2]

theorem distinctKeys_setA : ∀ (cs : List (String × Node)) (c : String) (v : Node),
    distinctKeys cs = true → distinctKeys (setA cs c v) = true := by
  intro cs c v h
  induction cs with
  | nil => simp [setA, distinctKeys]
  | cons hd tl ih =>
    obtain ⟨c', v'⟩ := hd
    simp only [distinctKeys, Bool.and_eq_true] at h
    rw [setA]
    split
    · rename_i heq
      subst heq
      simp only [distinctKeys, Bool.and_eq_true]
      exact ⟨h.1, h.2⟩
    · rename_i hne
      simp only [distinctKeys, Bool.and_eq_true]
      refine ⟨?_, ih h.2⟩
      apply all_setA tl _ c v h.1
      simp
      exact fun e => hne e.symm

theorem childrenOkW_setA : ∀ (cs : List (String × Node)) (k c : String) (v : Node),
    childrenOkW k cs = true → prefixB k.data c.data = true →
    subtreeOkW c v = true → childrenOkW k (setA cs c v) = true := by
  intro cs k c v hok hp hv
  induction cs with
  | nil => simp [setA, childrenOkW, hp, hv]
  | cons hd tl ih =>
    obtain ⟨c', m⟩ := hd
    simp only [childrenOkW, Bool.and_eq_true] at hok
    rw [setA]
    split
    · rename_i heq
      subst heq
      simp only [childrenOkW, Bool.and_eq_true]
      exact ⟨⟨hp, hv⟩, hok.2⟩
    · simp only [childrenOkW, Bool.and_eq_true]
      exact ⟨hok.1, ih hok.2⟩

theorem subtreeOkW_mk (k d : String) (nt i e s : Option String)
    (cs : List (String × Node)) :
    subtreeOkW k (Node.mk d nt i e s cs) = (distinctKeys cs && childrenOkW k cs) := by
  rw [subtreeOkW]

theorem subtreeOkW_withChildren (k : String) (n : Node) (cs : List (String × Node)) :
    subtreeOkW k (n.withChildren cs) = (distinctKeys cs && childrenOkW k cs) := by
  cases n
  rw [Node.withChildren, subtreeOkW_mk]

theorem subtreeOkW_withDescription (k : String) (n : Node) (d : String) :
    subtreeOkW k (n.withDescription d) = subtreeOkW k n := by
  cases n
  rw [Node.withDescription, subtreeOkW_mk, subtreeOkW_mk]

theorem subtreeOkW_leafFresh (k d : String) (nt i e s : Option String) :
    subtreeOkW k (Node.mk d nt i e s []) = true := by
  rw [subtreeOkW_mk]
  simp [distinctKeys, childrenOkW]

theorem treeOkW_setA (t : List (String × Node)) (c : String) (v : Node)
    (ht : treeOkW t = true) (hv : subtreeOkW c v = true) :
    treeOkW (setA t c v) = true := by
  simp only [treeOkW, Bool.and_eq_true] at ht ⊢
  exact ⟨distinctKeys_setA t c v ht.1,
    childrenOkW_setA t "" c v ht.2 rfl hv⟩

theorem treeOkW_getA (t : List (String × Node)) (c : String) (n : Node)
    (ht : treeOkW t = true) (hget : getA t c = some n) : subtreeOkW c n = true := by
  simp only [treeOkW, Bool.and_eq_true] at ht
  exact (childrenOkW_getA t "" c n ht.2 hget).2

theorem subtreeOkW_children (k : String) (n : Node) (h : subtreeOkW k n = true) :
    distinctKeys n.children = true ∧ childrenOkW k n.children = true := by
  cases n
  rw [subtreeOkW_mk] at h
  simp only [Bool.and_eq_true] at h
  exact ⟨h.1, h.2⟩

theorem strTake_data (s : String) (n : Nat) : (strTake s n).data = s.data.take n := rfl

theorem subtreeOkW_update (ccode : String) (ch0 : Node) (hcode : String) (v : Node)
    (hc : subtreeOkW ccode ch0 = true) (hp : prefixB ccode.data hcode.data = true)
    (hv : subtreeOkW hcode v = true) :
    subtreeOkW ccode (ch0.withChildren (setA ch0.children hcode v)) = true := by
  rw [subtreeOkW_withChildren]
  obtain ⟨h1, h2⟩ := subtreeOkW_children _ _ hc
  simp only [Bool.and_eq_true]
  exact ⟨distinctKeys_setA _ _ _ h1, childrenOkW_setA _ _ _ _ h2 hp hv⟩

theorem build_row_preserves (notes : List (String × String)) (t : List (String × Node))
    (r : Row) (ht : treeOkW t = true) : treeOkW (build_row notes t r) = true := by
  rw [build_row]
  simp only []
  split
  · exact ht
  · have hch0 : subtreeOkW (strTake r.header 2)
        (match getA t (strTake r.header 2) with
         | some n => n
         | none => Node.mk "" (getA notes (strTake r.header 2)) none none none []) =
          true := by
      split
      · rename_i n hget
        exact treeOkW_getA t _ n ht hget
      · exact subtreeOkW_leafFresh _ _ _ _ _ _
    have hpch : prefixB (strTake r.header 2).data r.header.data = true := by
      rw [strTake_data]
      exact prefixB_take _ _
    split
    · -- heading-title row
      apply treeOkW_setA _ _ _ ht
      split
      · rw [subtreeOkW_withDescription]
        apply subtreeOkW_update _ _ _ _ hch0 hpch
        split
        · rename_i h hget
          rw [subtreeOkW_withDescription]
          exact (childrenOkW_getA _ _ _ _ (subtreeOkW_children _ _ hch0).2 hget).2
        · exact subtreeOkW_leafFresh _ _ _ _ _ _
      · apply subtreeOkW_update _ _ _ _ hch0 hpch
        split
        · rename_i h hget
          rw [subtreeOkW_withDescription]
          exact (childrenOkW_getA _ _ _ _ (subtreeOkW_children _ _ hch0).2 hget).2
        · exact subtreeOkW_leafFresh _ _ _ _ _ _
    · have hh0 : subtreeOkW r.header
          (match getA (match getA t (strTake r.header 2) with
             | some n => n
             | none => Node.mk "" (getA notes (strTake r.header 2)) none none none
                 []).children r.header with
           | some h => h
           | none => Node.mk "" none none none none []) = true := by
        split
        · rename_i h hget
          exact (childrenOkW_getA _ _ _ _ (subtreeOkW_children _ _ hch0).2 hget).2
        · exact subtreeOkW_leafFresh _ _ _ _ _ _
      have hphh : prefixB r.header.data (r.header ++ r.sub).data = true := by
        rw [String.data_append]
        exact prefixB_append_self _ _
      split
      · -- subheading-title row
        apply treeOkW_setA _ _ _ ht
        apply subtreeOkW_update _ _ _ _ hch0 hpch
        apply subtreeOkW_update _ _ _ _ hh0 hphh
        split
        · rename_i sh hget
          rw [subtreeOkW_withDescription]
          exact (childrenOkW_getA _ _ _ _ (subtreeOkW_children _ _ hh0).2 hget).2
        · exact subtreeOkW_leafFresh _ _ _ _ _ _
      · -- leaf row
        apply treeOkW_setA _ _ _ ht
        apply subtreeOkW_update _ _ _ _ hch0 hpch
        apply subtreeOkW_update _ _ _ _ hh0 hphh
        have hs0 : subtreeOkW (r.header ++ r.sub)
            (match getA (match getA (match getA t (strTake r.header 2) with
                 | some n => n
                 | none => Node.mk "" (getA notes (strTake r.header 2)) none none
                     none []).children r.header with
               | some h => h
               | none => Node.mk "" none none none none []).children
                (r.header ++ r.sub) with
             | some s => s
             | none => Node.mk "" none none none none []) = true := by
          split
          · rename_i sh hget
            exact (childrenOkW_getA _ _ _ _ (subtreeOkW_children _ _ hh0).2 hget).2
          · exact subtreeOkW_leafFresh _ _ _ _ _ _
        have hpss : prefixB (r.header ++ r.sub).data
            (r.header ++ r.sub ++ r.item).data = true := by
          rw [String.data_append, String.data_append, String.data_append]
          exact prefixB_append_self _ _
        apply subtreeOkW_update _ _ _ _ hs0 hpss
        exact subtreeOkW_leafFresh _ _ _ _ _ _

/-- C7 (amended): for every ordered row sequence and notes map, the built
tree satisfies the non-strict form of the invariant — every node's code has
its parent's code as a prefix, and no two sibling nodes share a code. -/
theorem build_prefix_invariant (rows : List Row)
    (notes : List (String × String)) : treeOkW (build_tree rows notes) = true := by
  rw [build_tree]
  have h : ∀ (rs : List Row) (t : List (String × Node)), treeOkW t = true →
      treeOkW (List.foldl (build_row notes) t rs) = true := by
    intro rs
    induction rs with
    | nil => intro t ht; exact ht
    | cons r rest ih =>
      intro t ht
      exact ih _ (build_row_preserves notes t r ht)
  apply h
  simp [treeOkW, distinctKeys, childrenOkW]

/-- C7 (counterexample): the claim's strict form fails.  A title row whose
`HEADER` has only 2 characters — the chapter-title row
`{HEADER:"01", DESC:"Live animals"}` — creates a heading child keyed
`"01"` inside chapter `"01"`: the child's code equals its parent's code
instead of strictly extending it. -/
theorem build_strict_prefix_fails :
    treeOkS (build_tree [⟨"01", "", "", "Live animals", "", "", ""⟩] []) = false := by
  rw [show build_tree [⟨"01", "", "", "Live animals", "", "", ""⟩] [] =
      [("01", Node.mk "" none none none none
        [("01", Node.mk "Live animals" none none none none [])])] from rfl]
  simp [treeOkS, childrenOkS, subtreeOkS, distinctKeys, prefixB]

mutual
/-- Structural comparison of two nodes: same description, same notes, same
rate strings, and structurally identical children (same keys at every
level, in the same order). -/
def nodeStructEq : Node → Node → Bool
  | .mk d1 n1 i1 e1 s1 c1, .mk d2 n2 i2 e2 s2 c2 =>
    decide (d1 = d2) && decide (n1 = n2) && decide (i1 = i2) &&
      decide (e1 = e2) && decide (s1 = s2) && forestStructEq c1 c2
termination_by n _ => sizeOf n
/-- Structural comparison of two children maps. -/
def forestStructEq : List (String × Node) → List (String × Node) → Bool
  | [], [] => true
  | (k1, m1) :: r1, (k2, m2) :: r2 =>
    decide (k1 = k2) && nodeStructEq m1 m2 && forestStructEq r1 r2
  | _, _ => false
termination_by cs _ => sizeOf cs
end

theorem structEq_refl_aux : ∀ fuel : Nat,
    (∀ n : Node, sizeOf n ≤ fuel → nodeStructEq n n = true) ∧
    (∀ t : List (String × Node), sizeOf t ≤ fuel → forestStructEq t t = true) := by
  intro fuel
  induction fuel with
  | zero =>
    constructor
    · intro n h
      exact absurd h (by have := sizeOf_node_pos n; omega)
    · intro t h
      exact absurd h (by cases t <;> simp)
  | succ m ih =>
    constructor
    · intro n h
      cases n with
      | mk d nt i e s cs =>
        rw [nodeStructEq]
        have : sizeOf cs ≤ m := by simp at h; omega
        simp [ih.2 cs this]
    · intro t h
      cases t with
      | nil => rw [forestStructEq]
      | cons hd tl =>
        obtain ⟨k, n⟩ := hd
        rw [forestStructEq]
        have h1 : sizeOf n ≤ m := by simp at h; omega
        have h2 : sizeOf tl ≤ m := by simp at h; omega
        simp [ih.1 n h1, ih.2 tl h2]

/-- C9: the build is a pure, deterministic function of its inputs: two runs
on the same ordered row sequence and the same notes map (the embedding has
no cache-skip, i.e. it is bypassed) return equal trees, and the structural
comparison — same keys at every level, same descriptions, same notes, same
rate strings — holds between them. -/
theorem build_tree_deterministic (rows1 rows2 : List Row)
    (notes1 notes2 : List (String × String)) (hr : rows1 = rows2)
    (hn : notes1 = notes2) :
    build_tree rows1 notes1 = build_tree rows2 notes2 ∧
    forestStructEq (build_tree rows1 notes1) (build_tree rows2 notes2) = true := by
  subst hr
  subst hn
  exact ⟨rfl, (structEq_refl_aux (sizeOf (build_tree rows1 notes1))).2 _ le_rfl⟩

/-- Witness: two builds from the §8 rows coincide structurally. -/
theorem build_tree_deterministic_witness :
    build_tree exRows [] = build_tree exRows [] ∧
    forestStructEq (build_tree exRows []) (build_tree exRows []) = true :=
  build_tree_deterministic exRows exRows [] [] rfl rfl
